import Mathlib

/-!
Shallow embedding of the task dependency / date-propagation core of the
PRODUCTION_TIMELINE_SERVER repository.

Conventions of the embedding:
* JavaScript `Date` values are modelled as `Int` timestamps in milliseconds
  (`new Date(x).getTime()`).  The application pins the process timezone to
  Asia/Manila (UTC+8, no DST), so `moment(d).format("YYYY-MM-DD")` equality is
  modelled as equality of `dayIndex` (floor division of the shifted timestamp
  by the length of a day) and `Date.setDate(getDate() + n)` is modelled as
  adding `n * dayMs`.
* `null`/`undefined` fields become `Option`; a JS `Map` built with
  `new Map(list.map(t => [t.order, t]))` keeps the LAST entry for a duplicated
  key, which `tasksMapGet` reproduces with a left fold.
* Thrown JS errors become `Except` values carrying the `error.status` field
  (`none` models an untyped runtime error such as a `TypeError`).
* Mongoose `save()` calls and `logActivity` calls are captured in an
  `Effects` record (persisted documents and the `action` tags of activity
  entries); e-mail delivery is external I/O and is recorded only as the list
  of task names for which a notification attempt is made.
-/

namespace ProdTimeline

/-- Length of a calendar day in milliseconds (no DST in Asia/Manila). -/
def dayMs : Int := 86400000

/-- Offset of the pinned process timezone (Asia/Manila, UTC+8), in ms. -/
def manilaOffsetMs : Int := 8 * 3600000

/-- Calendar day of a millisecond timestamp, as used by
`moment(d).format("YYYY-MM-DD")` under the pinned timezone. -/
def dayIndex (t : Int) : Int := (t + manilaOffsetMs).fdiv dayMs

/-- The `computedDates` subdocument of a snapshot task.  The JS field `end`
is a Lean keyword and is rendered `endDate`. -/
structure ComputedDates where
  start : Option Int
  endDate : Option Int
deriving DecidableEq, Repr

/-- One task entry of a season snapshot (`taskSnapshotSchema` in
`models/SeasonSnapshot.js`).  `id` models the Mongo `_id` rendered with
`String(t._id)`. -/
structure TaskEntry where
  id : String
  order : String
  name : String
  responsible : List String
  precedingTasks : List String
  leadTime : Int
  status : String
  actualCompletion : Option Int
  remarks : Option String
  computedDates : ComputedDates
  sourceTemplateActiveOnCreation : Bool := true
deriving DecidableEq, Repr

/-- A season document (`models/Season.js`), restricted to the fields the
progression logic reads and writes. -/
structure Season where
  id : String
  name : String
  status : String
  requireAttention : List String
  createdAt : Int
deriving DecidableEq, Repr

/-- A season snapshot document (`models/SeasonSnapshot.js`). -/
structure Snapshot where
  seasonId : String
  tasks : List TaskEntry
deriving DecidableEq, Repr

/-- Lookup in `new Map(tasks.map(t => [t.order, t]))`: on duplicate `order`
codes the LAST entry wins, hence the left fold. -/
def tasksMapGet (ts : List TaskEntry) (o : String) : Option TaskEntry :=
  ts.foldl (fun acc t => if t.order = o then some t else acc) none

/-! ## Date Propagation Engine (`recalculateAllTaskDates`, taskProgression.js 16-83) -/

/-- The predecessor scan of `recalculateAllTaskDates` (lines 40-53): walk the
`precedingTasks` codes keeping the latest `actualCompletion`; a missing or
completion-less predecessor aborts the scan (`allPredecessorsComplete = false`,
modelled as `none`).  During propagation no `actualCompletion` field is ever
written, so looking the predecessors up in the pass-initial list is exactly
the behaviour of the JS `tasksMap` of aliased mutable task objects. -/
def scanPreds (ts : List TaskEntry) : List String → Option Int → Option Int
  | [], latest => latest
  | predOrder :: rest, latest =>
    match tasksMapGet ts predOrder with
    | none => none
    | some predecessor =>
      match predecessor.actualCompletion with
      | none => none
      | some d =>
        let latest' :=
          match latest with
          | none => d
          | some a => if a < d then d else a
        scanPreds ts rest (some latest')

/-- The effective ready timestamp of a task (lines 35-54): the season
creation date when there are no preceding codes, otherwise the predecessor
scan; `none` when some predecessor is missing or not yet completed. -/
def readyTime (ts : List TaskEntry) (seasonCreatedAt : Int) (task : TaskEntry) :
    Option Int :=
  if task.precedingTasks.isEmpty then some seasonCreatedAt
  else scanPreds ts task.precedingTasks none

/-- The body of the `tasks.forEach` of `recalculateAllTaskDates` (lines
26-77) for one task: returns the updated task and whether this pass changed
it.  Note that the skip guard is `task.actualCompletion` being truthy — not
the task status — and that the change test compares only `start`. -/
def stepTask (ts : List TaskEntry) (seasonCreatedAt : Int) (task : TaskEntry) :
    TaskEntry × Bool :=
  if task.actualCompletion.isSome then (task, false)
  else
    match readyTime ts seasonCreatedAt task with
    | some s =>
      if task.computedDates.start ≠ some s then
        ({ task with computedDates := ⟨some s, some (s + task.leadTime * dayMs)⟩ }, true)
      else (task, false)
    | none =>
      if task.computedDates.start ≠ none ∨ task.computedDates.endDate ≠ none then
        ({ task with computedDates := ⟨none, none⟩ }, true)
      else (task, false)

/-- One pass of the `while` loop: every task is stepped and the pass reports
whether any task changed.  The predecessor lookups use the pass-initial list,
which agrees with the aliased JS map because passes never write the fields
(`order`, `actualCompletion`) the lookups read. -/
def onePass (seasonCreatedAt : Int) (ts : List TaskEntry) : List TaskEntry × Bool :=
  let stepped := ts.map (stepTask ts seasonCreatedAt)
  (stepped.map Prod.fst, stepped.any Prod.snd)

/-- The `while (changedInIteration && iterationCount < maxIterations)` loop.
`fuel` is a structural recursion bound only; it starts at `maxIterations`
while `count` starts at `0` and both move in lock step, so the `0` case is
never the reason the loop stops — the guard is exactly the JS condition. -/
def recalcLoop (seasonCreatedAt : Int) (maxIterations : Nat) :
    Nat → List TaskEntry → Bool → Nat → List TaskEntry × Nat × Bool
  | 0, ts, changed, count => (ts, count, changed)
  | fuel + 1, ts, changed, count =>
    if changed = true ∧ count < maxIterations then
      let next := onePass seasonCreatedAt ts
      recalcLoop seasonCreatedAt maxIterations fuel next.1 next.2 (count + 1)
    else (ts, count, changed)

/-- `recalculateAllTaskDates` with its loop instrumentation: final task list,
final `iterationCount`, and final `changedInIteration` flag.
`maxIterations = tasks.length + 5`. -/
def recalcRun (tasks : List TaskEntry) (seasonCreatedAt : Int) :
    List TaskEntry × Nat × Bool :=
  recalcLoop seasonCreatedAt (tasks.length + 5) (tasks.length + 5) tasks true 0

/-- `recalculateAllTaskDates(tasks, seasonCreatedAt)` (taskProgression.js
16-83): the task list after the iterative recomputation. -/
def recalculateAllTaskDates (tasks : List TaskEntry) (seasonCreatedAt : Int) :
    List TaskEntry :=
  (recalcRun tasks seasonCreatedAt).1

/-! ## Attention Tracker (`updateSeasonAttention`, taskProgression.js 90-118) -/

/-- Whether a preceding `order` code resolves to a task whose status is
`completed` (the `predecessors.every` callback, lines 98-101). -/
def predCompleted (ts : List TaskEntry) (predOrder : String) : Bool :=
  match tasksMapGet ts predOrder with
  | some predecessor => predecessor.status == "completed"
  | none => false

/-- `Set.add` preceded by the JS truthiness filter `if (deptName)` (empty
strings are falsy); `Array.from` of a `Set` yields first-insertion order,
hence append-if-absent. -/
def addAttention (acc : List String) (deptName : String) : List String :=
  if deptName ≠ "" ∧ ¬ acc.contains deptName then acc ++ [deptName] else acc

/-- The per-task step of the attention scan (lines 95-113). -/
def attentionStep (ts : List TaskEntry) (acc : List String) (task : TaskEntry) :
    List String :=
  if task.status = "pending" ∧ task.precedingTasks.all (predCompleted ts) then
    task.responsible.foldl addAttention acc
  else acc

/-- The department set computed by `updateSeasonAttention` (in the order
`Array.from` produces it). -/
def computeAttention (ts : List TaskEntry) : List String :=
  ts.foldl (attentionStep ts) []

/-- `updateSeasonAttention(season, tasks)`: overwrites the season's
`requireAttention` with the freshly computed set. -/
def updateSeasonAttention (season : Season) (ts : List TaskEntry) : Season :=
  { season with requireAttention := computeAttention ts }

/-! ## Graph Validator ordering check
(`validatePrecedingOrderAlphabetical`, taskTemplateRoutes.js 9-18) -/

/-- Result shape `{ isValid, invalidTasks }`. -/
structure OrderValidation where
  isValid : Bool
  invalidTasks : List String
deriving DecidableEq, Repr

/-- `validatePrecedingOrderAlphabetical(currentOrder, precedingTasksArray)`:
JS string comparison `ptOrder >= currentOrder` is plain lexicographic
comparison of UTF-16 code units, i.e. the negation of the lexicographic `<`
on the character lists (the codes are ASCII). -/
def validatePrecedingOrderAlphabetical (currentOrder : String)
    (precedingTasksArray : List String) : OrderValidation :=
  if precedingTasksArray.isEmpty then ⟨true, []⟩
  else
    let invalidTasks :=
      precedingTasksArray.filter (fun ptOrder => ! decide (ptOrder.data < currentOrder.data))
    ⟨invalidTasks.isEmpty, invalidTasks⟩

/-- A task list whose every entry passes the Graph Validator's ordering check
against its own preceding codes (the gate template authoring enforces). -/
def acceptsGraph (ts : List TaskEntry) : Prop :=
  ∀ t ∈ ts, (validatePrecedingOrderAlphabetical t.order t.precedingTasks).isValid = true

instance (ts : List TaskEntry) : Decidable (acceptsGraph ts) := by
  unfold acceptsGraph; infer_instance

/-! ## Season Lifecycle Controller
(`updateTaskAndProgressSeason`, taskProgression.js 127-300) -/

/-- A thrown JS error with its `error.status` field; `status = none` models an
untyped runtime error (such as the `TypeError` raised by reading `.name` of an
`undefined` predecessor). -/
structure JsError where
  message : String
  status : Option Nat
deriving DecidableEq, Repr

/-- Side effects of a transaction: `action` tags of activity-log entries, the
season/snapshot documents passed to `save()` in order, and the task names for
which an e-mail notification attempt is started (recipient resolution and
delivery are external I/O). -/
structure Effects where
  logs : List String
  savedSeasons : List Season
  savedSnapshots : List Snapshot
  emails : List String
deriving DecidableEq, Repr

/-- No effect yet. -/
def Effects.empty : Effects := ⟨[], [], [], []⟩

/-- The request body `{ actualCompletion?, remarks? }`.  The outer option is
`=== undefined`; an inner `none` models a string `new Date(...)` parses to
`NaN` (the malformed-date case). -/
structure UpdateData where
  actualCompletion : Option (Option Int)
  remarks : Option String
deriving DecidableEq, Repr

/-- Return value `{ hasChanged, updatedTasks }`. -/
structure UpdateResult where
  hasChanged : Bool
  updatedTasks : List TaskEntry
deriving DecidableEq, Repr

/-- External store as the transaction reads it: users (`_id`, `role`),
seasons, and the `emailNotificationsEnabled` setting (`none` when the
settings row is absent). -/
structure Env where
  users : List (String × String)
  seasons : List Season
  emailEnabled : Option Bool
deriving DecidableEq, Repr

/-- `User.findById(userId).select('role')`. -/
def findUserRole (env : Env) (userId : String) : Option String :=
  (env.users.find? (fun u => u.1 == userId)).map Prod.snd

/-- `Season.findById(id)`. -/
def findSeason (env : Env) (sid : String) : Option Season :=
  env.seasons.find? (fun s => s.id == sid)

/-- Structural `toLowerCase` on the character data (`user.role.toLowerCase()`). -/
def toLowerStr (s : String) : String := ⟨s.data.map Char.toLower⟩

/-- In-place mutation of the found task object inside the snapshot's task
array, modelled as replacement by `_id` (Mongo ids are unique per array). -/
def replaceTask (ts : List TaskEntry) (taskId : String) (t' : TaskEntry) :
    List TaskEntry :=
  ts.map (fun t => if t.id == taskId then t' else t)

/-- The remarks section (lines 148-159): update the field and log
`UPDATE_REMARKS` when a remarks value is provided and differs. -/
def applyRemarks (task0 : TaskEntry) (remarks? : Option String) : TaskEntry × Bool :=
  match remarks? with
  | some r => if task0.remarks ≠ some r then ({ task0 with remarks := some r }, true)
              else (task0, false)
  | none => (task0, false)

/-- The prerequisite loop (lines 181-189).  When the predecessor lookup comes
back `undefined` the guard `!predecessor || predecessor.status !== 'completed'`
is entered but the template literal then reads `predecessor.name`, so the JS
run dies with a `TypeError` (status `none`) instead of the 400 error. -/
def checkPreds (tasks : List TaskEntry) : List String → Except JsError Unit
  | [] => .ok ()
  | predOrder :: rest =>
    match tasksMapGet tasks predOrder with
    | none => .error ⟨"TypeError: Cannot read properties of undefined (reading name)", none⟩
    | some predecessor =>
      if predecessor.status ≠ "completed" then
        .error ⟨"Cannot complete task. Preceding task " ++ predecessor.name ++
                " (" ++ predecessor.order ++ ") is not done.", some 400⟩
      else checkPreds tasks rest

/-- The completion-date section (lines 162-207): parse the date, compare at
day granularity against the stored value, enforce the elevated-role rule for
already-completed tasks and the predecessor rule, then set `actualCompletion`
and force the status to `completed`.  Returns the updated task and whether a
completion change was applied (which is also when `UPDATE_COMPLETION_DATE`
is logged). -/
def applyCompletion (isAdminOrPlanner : Bool) (tasks1 : List TaskEntry)
    (task1 : TaskEntry) (actualCompletion? : Option (Option Int)) :
    Except JsError (TaskEntry × Bool) :=
  match actualCompletion? with
  | none => .ok (task1, false)
  | some parsed =>
    match parsed with
    | none => .error ⟨"Invalid actualCompletion date format", some 400⟩
    | some newAC =>
      if task1.actualCompletion.map dayIndex ≠ some (dayIndex newAC) then
        if task1.status = "completed" ∧ isAdminOrPlanner = false then
          .error ⟨"This task is already completed and cannot be changed.", some 403⟩
        else
          match checkPreds tasks1 task1.precedingTasks with
          | .error e => .error e
          | .ok _ =>
            .ok ({ task1 with actualCompletion := some newAC, status := "completed" }, true)
      else .ok (task1, false)

/-- `updateTaskAndProgressSeason(userId, snapshot, taskId, updateData)`
(taskProgression.js 127-300), with every `save()`/`logActivity`/e-mail
attempt collected in `Effects`. -/
def updateTaskAndProgressSeason (env : Env) (userId : String) (snapshot : Snapshot)
    (taskId : String) (updateData : UpdateData) :
    Except JsError UpdateResult × Effects :=
  match findUserRole env userId with
  | none => (.error ⟨"User not found.", some 404⟩, Effects.empty)
  | some role =>
    let userRole := toLowerStr role
    let isAdminOrPlanner : Bool := userRole == "admin" || userRole == "planner"
    match snapshot.tasks.find? (fun t => t.id == taskId) with
    | none => (.error ⟨"Task not found in snapshot", some 404⟩, Effects.empty)
    | some task0 =>
      let rem := applyRemarks task0 updateData.remarks
      let remLogs : List String := if rem.2 then ["UPDATE_REMARKS"] else []
      let tasks1 := replaceTask snapshot.tasks taskId rem.1
      match applyCompletion isAdminOrPlanner tasks1 rem.1 updateData.actualCompletion with
      | .error e => (.error e, { Effects.empty with logs := remLogs })
      | .ok (task2, compChanged) =>
        let logs2 := remLogs ++ (if compChanged then ["UPDATE_COMPLETION_DATE"] else [])
        if (rem.2 || compChanged) = false then
          (.ok ⟨false, snapshot.tasks⟩, { Effects.empty with logs := logs2 })
        else
          match findSeason env snapshot.seasonId with
          | none => (.error ⟨"Associated season not found", some 404⟩,
                     { Effects.empty with logs := logs2 })
          | some season =>
            let tasks2 := replaceTask tasks1 taskId task2
            let tasks3 := recalculateAllTaskDates tasks2 season.createdAt
            let newlyActionable :=
              if task2.status == "completed" then
                tasks3.filter (fun pt =>
                  pt.status == "pending" && pt.precedingTasks.contains task2.order &&
                  pt.precedingTasks.all (fun predOrder =>
                    match tasks3.find? (fun t => t.order == predOrder) with
                    | some p => p.status == "completed"
                    | none => false))
              else []
            let emails :=
              if newlyActionable.length > 0 && env.emailEnabled == some true then
                newlyActionable.map (fun t => t.name)
              else []
            let season1 := updateSeasonAttention season tasks3
            if tasks3.all (fun t => t.status == "completed") = true ∧
               season1.status ≠ "Closed" then
              let season2 := { season1 with status := "Closed", requireAttention := [] }
              (.ok ⟨true, tasks3⟩,
               { logs := logs2 ++ ["UPDATE_STATUS"],
                 savedSeasons := [season1, season2],
                 savedSnapshots := [⟨snapshot.seasonId, tasks3⟩],
                 emails := emails })
            else
              (.ok ⟨true, tasks3⟩,
               { logs := logs2,
                 savedSeasons := [season1],
                 savedSnapshots := [⟨snapshot.seasonId, tasks3⟩],
                 emails := emails })

/-! ## Season status operations -/

/-- The status whitelist of `updateSeasonStatus` (seasonController). -/
def validStatuses : List String := ["Open", "On-Hold", "Closed", "Canceled"]

/-- `updateSeasonStatus` (seasonController lines 13-64), season-state core:
invalid statuses are rejected, a same-status request is a reported no-op,
transitioning to `Open` re-derives `requireAttention` from the snapshot
(when one exists), any other transition clears it. -/
def updateSeasonStatus (snapshot? : Option Snapshot) (season : Season)
    (newStatus : String) : Except JsError Season :=
  if ¬ validStatuses.contains newStatus then
    .error ⟨"Invalid status: " ++ newStatus, some 400⟩
  else if season.status = newStatus then .ok season
  else
    let season1 := { season with status := newStatus }
    if newStatus = "Open" then
      match snapshot? with
      | some snap => .ok (updateSeasonAttention season1 snap.tasks)
      | none => .ok season1
    else .ok { season1 with requireAttention := [] }

/-- The `status` / `requireAttention` application of the generic season
update route `PUT /api/seasons/:id` (taskTemplateRoutes.js 617-631): the two
fields are applied independently (`if (status) season.status = status`), the
name/buyer handling before these lines only aborts earlier on its own errors.
The route's `requireAttention: null` / `''` clearing case is modelled as
providing an empty list. -/
def seasonPutApplyStatusAttention (season : Season) (status? : Option String)
    (requireAttention? : Option (List String)) : Season :=
  let s1 :=
    match status? with
    | some st => if st ≠ "" then { season with status := st } else season
    | none => season
  match requireAttention? with
  | some ra => { s1 with requireAttention := ra }
  | none => s1

/-! ## Snapshot Materializer (`POST /api/seasons`, snapshot task mapping) -/

/-- A task template document (`models/TaskTemplate.js`).  `defaultLeadTime`
is optional here because the materializer explicitly defends against legacy
rows missing the value; `defaultResponsible`/`defaultPrecedingTasks` being
`undefined` is modelled as the empty list (the route guards with `|| []`). -/
structure TaskTemplate where
  order : String
  name : String
  defaultResponsible : List String
  defaultPrecedingTasks : List String
  defaultLeadTime : Option Int
  isActive : Bool
deriving DecidableEq, Repr

/-- One element of the `taskTemplates.map(tt => ...)` literal of
`POST /api/seasons` (taskTemplateRoutes.js 408-418).  `tt.defaultLeadTime || 1`
is a JS truthiness test: it replaces an absent value AND a stored `0` by `1`.
The Mongo `_id` of the subdocument is generated at insert; it is modelled by
the (unique) order code. -/
def materializeTask (tt : TaskTemplate) : TaskEntry :=
  { id := tt.order
    order := tt.order
    name := tt.name
    responsible := tt.defaultResponsible
    precedingTasks := tt.defaultPrecedingTasks
    leadTime := match tt.defaultLeadTime with
      | some v => if v ≠ 0 then v else 1
      | none => 1
    status := if tt.isActive then "pending" else "completed"
    actualCompletion := none
    remarks := none
    computedDates := ⟨none, none⟩
    sourceTemplateActiveOnCreation := tt.isActive }

/-- The `snapshotTasks` list built at season creation. -/
def snapshotTasks (templates : List TaskTemplate) : List TaskEntry :=
  templates.map materializeTask

/-! ## Observation helpers used by the statements -/

/-- The thrown error of a transaction result, if any. -/
def errOf {α : Type} : Except JsError α → Option JsError
  | .error e => some e
  | .ok _ => none

/-- The `actualCompletion` of the predecessor a preceding code resolves to
(`none` when the code is dangling or the predecessor has no completion). -/
def predCompletionOf (ts : List TaskEntry) (predOrder : String) : Option Int :=
  (tasksMapGet ts predOrder).bind TaskEntry.actualCompletion

/-- The fields of a task the prerequisite scan and the attention test can
observe about a predecessor: its order code, status and name. -/
def predView (t : TaskEntry) : String × String × String :=
  (t.order, t.status, t.name)

/-- The relation the specification text intends for order codes.
Modelled from the spec: shorter codes precede longer ones and equal-length
codes compare lexicographically (so "B" is less than "AA"). -/
def specLtLenLex (a b : String) : Bool :=
  a.length < b.length || (a.length == b.length && decide (a.data < b.data))

/-- A task's stored date pair is consistent: whenever `start` is set, `end`
is `start` plus the lead time in days (the only shape the engine itself ever
writes). -/
def cdConsistent (t : TaskEntry) : Prop :=
  match t.computedDates.start with
  | some s => t.computedDates.endDate = some (s + t.leadTime * dayMs)
  | none => True

instance (t : TaskEntry) : Decidable (cdConsistent t) := by
  unfold cdConsistent
  cases t.computedDates.start <;> infer_instance

/-! ## Concrete fixtures used by counterexamples and witnesses -/

/-- Shape the materializer gives a template inactive at season creation:
status `completed` but `actualCompletion` null and no computed dates. -/
def taskInactiveA : TaskEntry :=
  { id := "a", order := "A", name := "Task A", responsible := ["PD"],
    precedingTasks := [], leadTime := 1, status := "completed",
    actualCompletion := none, remarks := none, computedDates := ⟨none, none⟩ }

/-- A pending task whose single predecessor is `taskInactiveA`. -/
def taskPendingB : TaskEntry :=
  { id := "b", order := "B", name := "Task B", responsible := ["QA"],
    precedingTasks := ["A"], leadTime := 1, status := "pending",
    actualCompletion := none, remarks := none, computedDates := ⟨none, none⟩ }

/-- A non-completed task that nevertheless carries an `actualCompletion`
(the engine's skip guard tests the completion, not the status). -/
def taskSkipC : TaskEntry :=
  { id := "c", order := "C", name := "Task C", responsible := [],
    precedingTasks := [], leadTime := 1, status := "pending",
    actualCompletion := some 5, remarks := none,
    computedDates := ⟨some 99, some 100⟩ }

/-- A pending task whose stored `start` already equals its target but whose
stored `end` is inconsistent; the change test looks only at `start`. -/
def taskStaleD : TaskEntry :=
  { id := "d", order := "D", name := "Task D", responsible := [],
    precedingTasks := [], leadTime := 1, status := "pending",
    actualCompletion := none, remarks := none,
    computedDates := ⟨some 0, some 999⟩ }

/-- A completed task (with a completion date) used as predecessor. -/
def seasonTaskA : TaskEntry :=
  { id := "sa", order := "A", name := "Season task A", responsible := ["PD"],
    precedingTasks := [], leadTime := 2, status := "completed",
    actualCompletion := some 0, remarks := none,
    computedDates := ⟨some 0, some 172800000⟩ }

/-- The single remaining pending task of the main season fixture. -/
def seasonTaskB : TaskEntry :=
  { id := "sb", order := "B", name := "Season task B", responsible := ["QA"],
    precedingTasks := ["A"], leadTime := 3, status := "pending",
    actualCompletion := none, remarks := none,
    computedDates := ⟨some 0, some 259200000⟩ }

/-- An open season that currently needs attention from QA. -/
def seasonMain : Season :=
  { id := "s1", name := "Season 1", status := "Open",
    requireAttention := ["QA"], createdAt := 0 }

/-- A store with one ordinary (non-elevated) user and the open season. -/
def envMain : Env :=
  { users := [("u1", "User")], seasons := [seasonMain], emailEnabled := some false }

/-- The main snapshot: A completed, B pending. -/
def snapMain : Snapshot := ⟨"s1", [seasonTaskA, seasonTaskB]⟩

/-- An update providing only a completion date (one day after creation). -/
def updMain : UpdateData := { actualCompletion := some (some 86400000), remarks := none }

/-- A pending task that exists in the dangling-predecessor snapshot. -/
def danglingB : TaskEntry :=
  { id := "db", order := "B", name := "Existing pending pred", responsible := [],
    precedingTasks := [], leadTime := 1, status := "pending",
    actualCompletion := none, remarks := none, computedDates := ⟨none, none⟩ }

/-- A task whose preceding codes name a dangling code "X" before the
existing pending code "B". -/
def danglingT : TaskEntry :=
  { id := "dt", order := "C", name := "Task with dangling pred", responsible := [],
    precedingTasks := ["X", "B"], leadTime := 1, status := "pending",
    actualCompletion := none, remarks := none, computedDates := ⟨none, none⟩ }

/-- Snapshot containing a dangling preceding-code reference. -/
def snapDangling : Snapshot := ⟨"s1", [danglingB, danglingT]⟩

/-- A store with no users at all. -/
def envNoUser : Env := { users := [], seasons := [], emailEnabled := none }

/-- A template whose stored lead time is 0. -/
def tplZeroLead : TaskTemplate :=
  { order := "A", name := "Zero lead", defaultResponsible := ["PD"],
    defaultPrecedingTasks := [], defaultLeadTime := some 0, isActive := true }

/-- An inactive template. -/
def tplInactive : TaskTemplate :=
  { order := "B", name := "Inactive template", defaultResponsible := ["QA"],
    defaultPrecedingTasks := ["A"], defaultLeadTime := none, isActive := false }

/-! ## Generic lemmas about the Date Propagation Engine

The central observation: a pass reads only fields (`order`,
`actualCompletion`, `precedingTasks`, `leadTime`) that no pass ever writes,
so every task's recomputed dates are fixed from the start and the second
pass can never report a change. -/

theorem stepTask_shape (ts : List TaskEntry) (c : Int) (t : TaskEntry) :
    (stepTask ts c t).1 = t ∨
    ∃ cd, (stepTask ts c t).1 = { t with computedDates := cd } := by
  unfold stepTask
  split
  · exact Or.inl rfl
  · split
    · split
      · exact Or.inr ⟨_, rfl⟩
      · exact Or.inl rfl
    · split
      · exact Or.inr ⟨_, rfl⟩
      · exact Or.inl rfl

theorem stepTask_preserves (ts : List TaskEntry) (c : Int) (t : TaskEntry) :
    ((stepTask ts c t).1).order = t.order ∧
    ((stepTask ts c t).1).actualCompletion = t.actualCompletion ∧
    ((stepTask ts c t).1).precedingTasks = t.precedingTasks ∧
    ((stepTask ts c t).1).leadTime = t.leadTime ∧
    ((stepTask ts c t).1).status = t.status ∧
    ((stepTask ts c t).1).id = t.id := by
  rcases stepTask_shape ts c t with h | ⟨cd, h⟩ <;> rw [h] <;>
    exact ⟨rfl, rfl, rfl, rfl, rfl, rfl⟩

theorem tasksMapGet_foldl_map (f : TaskEntry → TaskEntry)
    (hf : ∀ t, (f t).order = t.order) (o : String) :
    ∀ (ts : List TaskEntry) (acc : Option TaskEntry),
      (ts.map f).foldl (fun a t => if t.order = o then some t else a) (acc.map f) =
      (ts.foldl (fun a t => if t.order = o then some t else a) acc).map f := by
  intro ts
  induction ts with
  | nil => intro acc; rfl
  | cons t rest ih =>
    intro acc
    simp only [List.map_cons, List.foldl_cons, hf t]
    by_cases h : t.order = o
    · rw [if_pos h, if_pos h]
      exact ih (some t)
    · rw [if_neg h, if_neg h]
      exact ih acc

theorem tasksMapGet_map (f : TaskEntry → TaskEntry)
    (hf : ∀ t, (f t).order = t.order) (ts : List TaskEntry) (o : String) :
    tasksMapGet (ts.map f) o = (tasksMapGet ts o).map f :=
  tasksMapGet_foldl_map f hf o ts none

theorem scanPreds_map (f : TaskEntry → TaskEntry)
    (hord : ∀ t, (f t).order = t.order)
    (hac : ∀ t, (f t).actualCompletion = t.actualCompletion)
    (ts : List TaskEntry) :
    ∀ (ps : List String) (acc : Option Int),
      scanPreds (ts.map f) ps acc = scanPreds ts ps acc := by
  intro ps
  induction ps with
  | nil => intro acc; rfl
  | cons p rest ih =>
    intro acc
    have hmg := tasksMapGet_map f hord ts p
    cases hget : tasksMapGet ts p with
    | none =>
      rw [hget] at hmg
      have hmg' : tasksMapGet (List.map f ts) p = none := hmg
      simp [scanPreds, hmg', hget]
    | some u =>
      rw [hget] at hmg
      have hmg' : tasksMapGet (List.map f ts) p = some (f u) := hmg
      simp only [scanPreds, hmg', hget]
      rw [hac u]
      cases u.actualCompletion with
      | none => rfl
      | some d => exact ih _

theorem readyTime_map (f : TaskEntry → TaskEntry)
    (hord : ∀ t, (f t).order = t.order)
    (hac : ∀ t, (f t).actualCompletion = t.actualCompletion)
    (ts : List TaskEntry) (c : Int) (u : TaskEntry) :
    readyTime (ts.map f) c u = readyTime ts c u := by
  unfold readyTime
  split
  · rfl
  · exact scanPreds_map f hord hac ts u.precedingTasks none

theorem readyTime_congr (ts : List TaskEntry) (c : Int) (u v : TaskEntry)
    (h : u.precedingTasks = v.precedingTasks) :
    readyTime ts c u = readyTime ts c v := by
  unfold readyTime
  rw [h]

theorem stepTask_of_completion (ts : List TaskEntry) (c : Int) (t : TaskEntry)
    (h : t.actualCompletion.isSome = true) : stepTask ts c t = (t, false) := by
  unfold stepTask
  rw [if_pos h]

theorem stepTask_of_ready_some (ts : List TaskEntry) (c : Int) (t : TaskEntry)
    (h : t.actualCompletion = none) (s : Int) (hr : readyTime ts c t = some s) :
    stepTask ts c t =
      (if t.computedDates.start ≠ some s then
        ({ t with computedDates := ⟨some s, some (s + t.leadTime * dayMs)⟩ }, true)
      else (t, false)) := by
  unfold stepTask
  rw [if_neg (by simp [h]), hr]

theorem stepTask_of_ready_none (ts : List TaskEntry) (c : Int) (t : TaskEntry)
    (h : t.actualCompletion = none) (hr : readyTime ts c t = none) :
    stepTask ts c t =
      (if t.computedDates.start ≠ none ∨ t.computedDates.endDate ≠ none then
        ({ t with computedDates := ⟨none, none⟩ }, true)
      else (t, false)) := by
  unfold stepTask
  rw [if_neg (by simp [h]), hr]

theorem stepTask_stepTask (ts : List TaskEntry) (c : Int) (t : TaskEntry) :
    stepTask (ts.map (fun u => (stepTask ts c u).1)) c ((stepTask ts c t).1) =
      ((stepTask ts c t).1, false) := by
  have hord : ∀ u, ((stepTask ts c u).1).order = u.order :=
    fun u => (stepTask_preserves ts c u).1
  have hac : ∀ u, ((stepTask ts c u).1).actualCompletion = u.actualCompletion :=
    fun u => (stepTask_preserves ts c u).2.1
  have hready : ∀ u, readyTime (ts.map (fun u => (stepTask ts c u).1)) c u = readyTime ts c u :=
    readyTime_map _ hord hac ts c
  cases h0 : t.actualCompletion with
  | some d =>
    have h1 : stepTask ts c t = (t, false) :=
      stepTask_of_completion ts c t (by simp [h0])
    rw [h1]
    exact stepTask_of_completion _ c t (by simp [h0])
  | none =>
    have hac1 : ((stepTask ts c t).1).actualCompletion = none := by rw [hac t, h0]
    have hready1 : readyTime (ts.map (fun u => (stepTask ts c u).1)) c ((stepTask ts c t).1) =
        readyTime ts c t := by
      rw [hready ((stepTask ts c t).1)]
      exact readyTime_congr ts c _ t ((stepTask_preserves ts c t).2.2.1)
    cases hr : readyTime ts c t with
    | some s =>
      have h1 := stepTask_of_ready_some ts c t h0 s hr
      rw [hr] at hready1
      by_cases hs : t.computedDates.start ≠ some s
      · rw [h1, if_pos hs] at hready1 hac1 ⊢
        rw [stepTask_of_ready_some _ c _ hac1 s hready1]
        simp
      · rw [h1, if_neg hs] at hready1 hac1 ⊢
        rw [stepTask_of_ready_some _ c _ hac1 s hready1]
        simp only [not_not] at hs
        simp [hs]
    | none =>
      have h1 := stepTask_of_ready_none ts c t h0 hr
      rw [hr] at hready1
      by_cases hs : t.computedDates.start ≠ none ∨ t.computedDates.endDate ≠ none
      · rw [h1, if_pos hs] at hready1 hac1 ⊢
        rw [stepTask_of_ready_none _ c _ hac1 hready1]
        simp
      · rw [h1, if_neg hs] at hready1 hac1 ⊢
        rw [stepTask_of_ready_none _ c _ hac1 hready1]
        push_neg at hs
        simp [hs.1, hs.2]

theorem onePass_fst (c : Int) (ts : List TaskEntry) :
    (onePass c ts).1 = ts.map (fun u => (stepTask ts c u).1) := by
  unfold onePass
  simp [List.map_map, Function.comp]

theorem onePass_of_pointwise (c : Int) (l : List TaskEntry)
    (h : ∀ u ∈ l, stepTask l c u = (u, false)) : onePass c l = (l, false) := by
  have h1 : l.map (stepTask l c) = l.map (fun u => (u, false)) :=
    List.map_congr_left (fun u hu => h u hu)
  unfold onePass
  dsimp only
  rw [h1]
  simp [Function.comp]
  have hid : (Prod.fst ∘ fun u : TaskEntry => (u, false)) = id := rfl
  rw [hid, List.map_id]

theorem onePass_onePass (c : Int) (ts : List TaskEntry) :
    onePass c ((onePass c ts).1) = ((onePass c ts).1, false) := by
  refine onePass_of_pointwise c _ (fun u hu => ?_)
  rw [onePass_fst] at hu
  obtain ⟨v, hv, rfl⟩ := List.mem_map.mp hu
  rw [onePass_fst]
  exact stepTask_stepTask ts c v

theorem recalcLoop_zero (c : Int) (M : Nat) (ts : List TaskEntry) (ch : Bool) (n : Nat) :
    recalcLoop c M 0 ts ch n = (ts, n, ch) := rfl

theorem recalcLoop_succ (c : Int) (M fuel : Nat) (ts : List TaskEntry) (ch : Bool) (n : Nat) :
    recalcLoop c M (fuel + 1) ts ch n =
      if ch = true ∧ n < M then
        recalcLoop c M fuel (onePass c ts).1 (onePass c ts).2 (n + 1)
      else (ts, n, ch) := rfl

theorem recalcRun_spec (ts : List TaskEntry) (c : Int) :
    (recalcRun ts c).1 = ts.map (fun u => (stepTask ts c u).1) ∧
    (recalcRun ts c).2.1 ≤ 2 ∧ (recalcRun ts c).2.2 = false := by
  unfold recalcRun
  have h5 : ts.length + 5 = (ts.length + 4) + 1 := rfl
  rw [h5, recalcLoop_succ, if_pos ⟨rfl, by omega⟩]
  have h4 : ts.length + 4 = (ts.length + 3) + 1 := rfl
  cases hch : (onePass c ts).2 with
  | false =>
    rw [h4, recalcLoop_succ, if_neg (by simp)]
    exact ⟨onePass_fst c ts, by simp, rfl⟩
  | true =>
    rw [h4, recalcLoop_succ, if_pos ⟨rfl, by omega⟩]
    rw [onePass_onePass c ts]
    have h3 : ts.length + 3 = (ts.length + 2) + 1 := rfl
    rw [h3, recalcLoop_succ, if_neg (by simp)]
    exact ⟨onePass_fst c ts, by simp, rfl⟩

theorem recalc_eq_map (ts : List TaskEntry) (c : Int) :
    recalculateAllTaskDates ts c = ts.map (fun u => (stepTask ts c u).1) :=
  (recalcRun_spec ts c).1

theorem ite_lt_eq_max (a d : Int) : (if a < d then d else a) = max a d := by
  by_cases h : a < d
  · rw [if_pos h, max_eq_right h.le]
  · rw [if_neg h, max_eq_left (not_lt.mp h)]

theorem scanPreds_none_of_bad (ts : List TaskEntry) :
    ∀ (ps : List String) (acc : Option Int),
      (∃ p ∈ ps, predCompletionOf ts p = none) → scanPreds ts ps acc = none := by
  intro ps
  induction ps with
  | nil =>
    intro acc h
    rcases h with ⟨p, hp, _⟩
    exact absurd hp (List.not_mem_nil p)
  | cons p rest ih =>
    intro acc h
    cases hget : tasksMapGet ts p with
    | none => simp [scanPreds, hget]
    | some u =>
      cases hau : u.actualCompletion with
      | none => simp [scanPreds, hget, hau]
      | some d =>
        simp only [scanPreds, hget, hau]
        apply ih
        rcases h with ⟨q, hq, hbad⟩
        rcases List.mem_cons.mp hq with rfl | hq'
        · exfalso
          unfold predCompletionOf at hbad
          rw [hget] at hbad
          simp [hau] at hbad
        · exact ⟨q, hq', hbad⟩

theorem scanPreds_acc_max (ts : List TaskEntry) :
    ∀ (ps : List String) (a : Int),
      (∀ p ∈ ps, (predCompletionOf ts p).isSome = true) →
      scanPreds ts ps (some a) =
        some ((ps.filterMap (predCompletionOf ts)).foldl max a) := by
  intro ps
  induction ps with
  | nil => intro a _; rfl
  | cons p rest ih =>
    intro a hall
    have hp := hall p (List.mem_cons_self p rest)
    cases hget : tasksMapGet ts p with
    | none =>
      exfalso
      unfold predCompletionOf at hp
      rw [hget] at hp
      simp at hp
    | some u =>
      cases hau : u.actualCompletion with
      | none =>
        exfalso
        unfold predCompletionOf at hp
        rw [hget] at hp
        simp [hau] at hp
      | some d =>
        have hpred : predCompletionOf ts p = some d := by
          unfold predCompletionOf
          rw [hget]
          simp [hau]
        simp only [scanPreds, hget, hau]
        rw [ih _ (fun q hq => hall q (List.mem_cons_of_mem p hq))]
        rw [List.filterMap_cons, hpred]
        simp only [List.foldl_cons]
        rw [ite_lt_eq_max]

theorem scanPreds_max (ts : List TaskEntry) (p0 : String) (rest : List String)
    (hall : ∀ p ∈ p0 :: rest, (predCompletionOf ts p).isSome = true) :
    scanPreds ts (p0 :: rest) none =
      ((p0 :: rest).filterMap (predCompletionOf ts)).max? := by
  have hp := hall p0 (List.mem_cons_self p0 rest)
  cases hget : tasksMapGet ts p0 with
  | none =>
    exfalso
    unfold predCompletionOf at hp
    rw [hget] at hp
    simp at hp
  | some u =>
    cases hau : u.actualCompletion with
    | none =>
      exfalso
      unfold predCompletionOf at hp
      rw [hget] at hp
      simp [hau] at hp
    | some d =>
      have hpred : predCompletionOf ts p0 = some d := by
        unfold predCompletionOf
        rw [hget]
        simp [hau]
      simp only [scanPreds, hget, hau]
      rw [scanPreds_acc_max ts rest d (fun q hq => hall q (List.mem_cons_of_mem p0 hq))]
      rw [List.filterMap_cons, hpred]
      rfl

/-! ## Generic lemmas about the Attention Tracker -/

theorem addAttention_mono (acc : List String) (x d : String) (h : d ∈ acc) :
    d ∈ addAttention acc x := by
  unfold addAttention
  split
  · exact List.mem_append_left _ h
  · exact h

theorem foldl_addAttention_mono (rs : List String) :
    ∀ (acc : List String) (d : String), d ∈ acc → d ∈ rs.foldl addAttention acc := by
  induction rs with
  | nil => intro acc d h; exact h
  | cons r rest ih =>
    intro acc d h
    exact ih _ d (addAttention_mono acc r d h)

theorem foldl_addAttention_mem (rs : List String) :
    ∀ (acc : List String) (d : String), d ∈ rs → d ≠ "" → d ∈ rs.foldl addAttention acc := by
  induction rs with
  | nil =>
    intro acc d h _
    exact absurd h (List.not_mem_nil d)
  | cons r rest ih =>
    intro acc d h hne
    rcases List.mem_cons.mp h with rfl | h'
    · refine foldl_addAttention_mono rest _ d ?_
      unfold addAttention
      split
      · exact List.mem_append_right _ (List.mem_singleton.mpr rfl)
      · rename_i hcond
        push_neg at hcond
        exact List.mem_of_elem_eq_true (hcond hne)
    · exact ih _ d h' hne

theorem attentionStep_mono (ts : List TaskEntry) (acc : List String) (t : TaskEntry)
    (d : String) (h : d ∈ acc) : d ∈ attentionStep ts acc t := by
  unfold attentionStep
  split
  · exact foldl_addAttention_mono _ _ d h
  · exact h

theorem foldl_attentionStep_mono (ts : List TaskEntry) (l : List TaskEntry) :
    ∀ (acc : List String) (d : String), d ∈ acc → d ∈ l.foldl (attentionStep ts) acc := by
  induction l with
  | nil => intro acc d h; exact h
  | cons t rest ih =>
    intro acc d h
    exact ih _ d (attentionStep_mono ts acc t d h)

theorem computeAttention_mem (ts : List TaskEntry) (t : TaskEntry) (hmem : t ∈ ts)
    (hpend : t.status = "pending")
    (hpreds : ∀ p ∈ t.precedingTasks, predCompleted ts p = true)
    (d : String) (hd : d ∈ t.responsible) (hne : d ≠ "") :
    d ∈ computeAttention ts := by
  obtain ⟨l1, l2, rfl⟩ := List.append_of_mem hmem
  unfold computeAttention
  rw [List.foldl_append, List.foldl_cons]
  refine foldl_attentionStep_mono _ l2 _ d ?_
  unfold attentionStep
  rw [if_pos ⟨hpend, List.all_eq_true.mpr (fun p hp => hpreds p hp)⟩]
  exact foldl_addAttention_mem _ _ d hd hne

theorem cdConsistent_spec (t : TaskEntry) (s : Int) (h : cdConsistent t)
    (hs : t.computedDates.start = some s) :
    t.computedDates.endDate = some (s + t.leadTime * dayMs) := by
  unfold cdConsistent at h
  rw [hs] at h
  exact h

/-! ## Claim C1 — the per-entry date propagation rule -/

/-- C1 counterexample: the claim fails on the code at three explicit inputs.
(1) `taskPendingB` is not completed and its only predecessor is completed by
status, yet propagation leaves its start null because the predecessor's
`actualCompletion` is null; (2) `taskSkipC` is not completed and has no
preceding codes, yet its start stays 99 instead of the season creation
timestamp, because the skip guard tests `actualCompletion`; (3) for
`taskStaleD` start is set but end stays 999 instead of start plus lead time,
because only a changed start triggers the end recomputation. -/
theorem c1_counterexample :
    ((∀ p ∈ taskPendingB.precedingTasks,
        (tasksMapGet [taskInactiveA, taskPendingB] p).map TaskEntry.status =
          some "completed") ∧
     taskPendingB.status ≠ "completed" ∧
     ((recalculateAllTaskDates [taskInactiveA, taskPendingB] 0).find?
        (fun t => t.id == "b")).map (fun t => t.computedDates.start) = some none) ∧
    (taskSkipC.status ≠ "completed" ∧ taskSkipC.precedingTasks = [] ∧
     (recalculateAllTaskDates [taskSkipC] 0).map (fun t => t.computedDates.start) =
       [some 99] ∧
     (99 : Int) ≠ 0) ∧
    (taskStaleD.precedingTasks = [] ∧ taskStaleD.leadTime = 1 ∧
     (recalculateAllTaskDates [taskStaleD] 0).map (fun t => t.computedDates.endDate) =
       [some 999] ∧
     some (999 : Int) ≠ some (0 + 1 * dayMs)) := by
  decide

/-- C1 (amended): for inputs with consistent stored date pairs, propagation
maps every entry to its recomputed image, and for every entry with null
`actualCompletion` (the engine's not-completed test): with no preceding codes
start becomes the season creation timestamp and end start plus lead time;
with preceding codes, if every preceding code resolves to an entry with a
non-null `actualCompletion` then start is their maximum and end start plus
lead time, and if some preceding code is dangling or resolves to an entry
with null `actualCompletion` then the computed dates are cleared to
null/null. -/
theorem c1_date_rule_amended (ts : List TaskEntry) (created : Int)
    (hcons : ∀ t ∈ ts, cdConsistent t) :
    recalculateAllTaskDates ts created = ts.map (fun u => (stepTask ts created u).1) ∧
    ∀ t ∈ ts, t.actualCompletion = none →
      ((t.precedingTasks = [] →
          (stepTask ts created t).1.computedDates.start = some created ∧
          (stepTask ts created t).1.computedDates.endDate =
            some (created + t.leadTime * dayMs)) ∧
       (t.precedingTasks ≠ [] →
         ((∀ p ∈ t.precedingTasks, (predCompletionOf ts p).isSome = true) →
            ∃ m, (t.precedingTasks.filterMap (predCompletionOf ts)).max? = some m ∧
              (stepTask ts created t).1.computedDates.start = some m ∧
              (stepTask ts created t).1.computedDates.endDate =
                some (m + t.leadTime * dayMs)) ∧
         ((∃ p ∈ t.precedingTasks, predCompletionOf ts p = none) →
            (stepTask ts created t).1.computedDates = ⟨none, none⟩))) := by
  refine ⟨recalc_eq_map ts created, fun t hmem h0 => ?_⟩
  refine ⟨?_, fun hne => ⟨?_, ?_⟩⟩
  · intro hpre
    have hr : readyTime ts created t = some created := by
      unfold readyTime
      rw [hpre]
      rfl
    rw [stepTask_of_ready_some ts created t h0 created hr]
    by_cases hs : t.computedDates.start ≠ some created
    · rw [if_pos hs]
      exact ⟨rfl, rfl⟩
    · rw [if_neg hs]
      push_neg at hs
      exact ⟨hs, cdConsistent_spec t created (hcons t hmem) hs⟩
  · intro hall
    obtain ⟨p0, rest, hpeq⟩ := List.exists_cons_of_ne_nil hne
    have hp0 := hall p0 (by rw [hpeq]; exact List.mem_cons_self p0 rest)
    obtain ⟨d, hd⟩ := Option.isSome_iff_exists.mp hp0
    have hscan : scanPreds ts (p0 :: rest) none =
        ((p0 :: rest).filterMap (predCompletionOf ts)).max? := by
      refine scanPreds_max ts p0 rest (fun q hq => hall q ?_)
      rw [hpeq]
      exact hq
    have hfm : (p0 :: rest).filterMap (predCompletionOf ts) =
        d :: rest.filterMap (predCompletionOf ts) := by
      rw [List.filterMap_cons, hd]
    refine ⟨(rest.filterMap (predCompletionOf ts)).foldl max d, ?_, ?_⟩
    · rw [hpeq, hfm]
      rfl
    · have hr : readyTime ts created t =
          some ((rest.filterMap (predCompletionOf ts)).foldl max d) := by
        unfold readyTime
        rw [hpeq]
        simp only [List.isEmpty_cons, if_false, Bool.false_eq_true]
        rw [hscan, hfm]
        rfl
      rw [stepTask_of_ready_some ts created t h0 _ hr]
      by_cases hs : t.computedDates.start =
          some ((rest.filterMap (predCompletionOf ts)).foldl max d)
      · rw [if_neg (by simp [hs])]
        exact ⟨hs, cdConsistent_spec t _ (hcons t hmem) hs⟩
      · rw [if_pos hs]
        exact ⟨rfl, rfl⟩
  · intro hbad
    rcases hbad with ⟨p, hp, hbadp⟩
    have hne2 : t.precedingTasks ≠ [] := fun h => by
      rw [h] at hp
      exact (List.not_mem_nil p) hp
    have hr : readyTime ts created t = none := by
      unfold readyTime
      rw [if_neg (by simp [List.isEmpty_iff, hne2])]
      exact scanPreds_none_of_bad ts _ none ⟨p, hp, hbadp⟩
    rw [stepTask_of_ready_none ts created t h0 hr]
    by_cases hs : t.computedDates.start ≠ none ∨ t.computedDates.endDate ≠ none
    · rw [if_pos hs]
    · rw [if_neg hs]
      push_neg at hs
      have hcd : t.computedDates = ⟨t.computedDates.start, t.computedDates.endDate⟩ := rfl
      rw [hcd, hs.1, hs.2]

/-- C1 witness: the amended theorem applied to the two-task fixture. -/
theorem c1_witness :
    (stepTask [taskInactiveA, taskPendingB] 0 taskPendingB).1.computedDates =
      ⟨none, none⟩ ∧
    recalculateAllTaskDates [taskInactiveA, taskPendingB] 0 =
      [taskInactiveA, taskPendingB].map
        (fun u => (stepTask [taskInactiveA, taskPendingB] 0 u).1) := by
  have h := c1_date_rule_amended [taskInactiveA, taskPendingB] 0 (by decide)
  refine ⟨?_, h.1⟩
  have h2 := (h.2 taskPendingB (by decide) (by decide)).2 (by decide)
  exact h2.2 ⟨"A", by decide, by decide⟩

/-! ## Claim C2 — completed entries and propagation -/

/-- C2 (code bug): the guard of `recalculateAllTaskDates` skips tasks with a
truthy `actualCompletion`, not completed tasks, contradicting its own
comment ("Do not recalculate dates for tasks that are already completed")
and the snapshot invariant.  At the failing input — a `completed` entry with
null `actualCompletion` and null dates, exactly what the materializer
produces for an inactive template — propagation writes fresh computed
dates onto the completed entry. -/
theorem c2_code_bug_evaluation :
    taskInactiveA.status = "completed" ∧
    taskInactiveA.computedDates = ⟨none, none⟩ ∧
    (recalculateAllTaskDates [taskInactiveA] 0).map (fun t => t.computedDates.start) =
      [some 0] ∧
    (recalculateAllTaskDates [taskInactiveA] 0).map (fun t => t.actualCompletion) =
      [none] := by
  decide

/-! ## Claim C4 — Graph Validator ordering check -/

/-- C4 counterexample: under the spec's length-then-lexicographic order "B"
precedes "AA", so the claim accepts "B" as a predecessor of "AA"; the code
compares plain lexicographic JS strings and rejects it, returning "B" as an
offending code. -/
theorem c4_counterexample :
    specLtLenLex "B" "AA" = true ∧
    (validatePrecedingOrderAlphabetical "AA" ["B"]).isValid = false ∧
    (validatePrecedingOrderAlphabetical "AA" ["B"]).invalidTasks = ["B"] := by
  decide

/-- C4 (amended): the validator accepts iff every preceding code is strictly
less than the candidate under plain lexicographic string comparison (JS
`>=` on strings), and the offending codes returned are exactly those not
strictly less, in their original order. -/
theorem c4_ordering_amended (currentOrder : String) (preceding : List String) :
    ((validatePrecedingOrderAlphabetical currentOrder preceding).isValid = true ↔
      ∀ p ∈ preceding, p.data < currentOrder.data) ∧
    (validatePrecedingOrderAlphabetical currentOrder preceding).invalidTasks =
      preceding.filter (fun p => ! decide (p.data < currentOrder.data)) := by
  unfold validatePrecedingOrderAlphabetical
  by_cases h : preceding.isEmpty
  · rw [if_pos h]
    have hnil : preceding = [] := List.isEmpty_iff.mp h
    subst hnil
    simp
  · rw [if_neg h]
    refine ⟨?_, rfl⟩
    simp [List.isEmpty_iff, List.filter_eq_nil_iff]

/-- C4 witness: the amended equivalence instantiated at a valid input. -/
theorem c4_witness :
    (validatePrecedingOrderAlphabetical "B" ["A"]).isValid = true :=
  ((c4_ordering_amended "B" ["A"]).1).mpr (by decide)

/-! ## Claim C5 — quiescence of the propagation loop -/

/-- C5: for every task list the loop runs at most `length + 5` passes, and
for lists accepted by the Graph Validator it stops with the changed flag
false (quiescence) within that bound.  (In fact the flag is false within two
passes for every list, because a pass only reads fields no pass writes.) -/
theorem c5_quiescence (ts : List TaskEntry) (created : Int) :
    (acceptsGraph ts →
      (recalcRun ts created).2.2 = false ∧
      (recalcRun ts created).2.1 ≤ ts.length + 5) ∧
    (recalcRun ts created).2.1 ≤ ts.length + 5 := by
  have h := recalcRun_spec ts created
  exact ⟨fun _ => ⟨h.2.2, le_trans h.2.1 (by omega)⟩, le_trans h.2.1 (by omega)⟩

/-- C5 witness: a validator-accepted singleton list reaches quiescence. -/
theorem c5_witness :
    acceptsGraph [taskInactiveA] ∧
    (recalcRun [taskInactiveA] 0).2.2 = false ∧
    (recalcRun [taskInactiveA] 0).2.1 ≤ [taskInactiveA].length + 5 :=
  ⟨by decide, (c5_quiescence [taskInactiveA] 0).1 (by decide)⟩

/-! ## Claim C8 — requireAttention on non-Open seasons -/

/-- C8 counterexample: the generic season update route can move a season
away from Open without clearing `requireAttention`, leaving a non-Open
season with a non-empty attention set. -/
theorem c8_counterexample :
    seasonMain.status = "Open" ∧
    (seasonPutApplyStatusAttention seasonMain (some "On-Hold") none).status =
      "On-Hold" ∧
    (seasonPutApplyStatusAttention seasonMain (some "On-Hold") none).requireAttention =
      ["QA"] ∧
    (["QA"] : List String) ≠ [] := by
  decide

/-- C8 (amended): the dedicated status endpoint maintains the invariant —
for a valid status change, any transition away from Open clears
`requireAttention` and a transition to Open re-derives it from the snapshot
— but the generic update route does not. -/
theorem c8_status_amended (season : Season) (snap : Snapshot) (newStatus : String)
    (hvalid : validStatuses.contains newStatus = true)
    (hchange : season.status ≠ newStatus) :
    (newStatus ≠ "Open" →
      updateSeasonStatus (some snap) season newStatus =
        .ok { season with status := newStatus, requireAttention := [] }) ∧
    (newStatus = "Open" →
      updateSeasonStatus (some snap) season newStatus =
        .ok { season with
               status := newStatus
               requireAttention := computeAttention snap.tasks }) := by
  unfold updateSeasonStatus
  rw [if_neg (fun hcon => hcon hvalid), if_neg hchange]
  constructor
  · intro hne
    rw [if_neg hne]
  · intro heq
    subst heq
    rw [if_pos rfl]
    rfl

/-- C8 witness: putting the main season on hold through the status endpoint
clears its attention set. -/
theorem c8_witness :
    updateSeasonStatus (some snapMain) seasonMain "On-Hold" =
      .ok { seasonMain with status := "On-Hold", requireAttention := [] } :=
  (c8_status_amended seasonMain snapMain "On-Hold" (by decide) (by decide)).1
    (by decide)

/-! ## Claim C9 — Snapshot Materializer -/

/-- C9 counterexample: a stored lead time of 0 is not preserved — the
materializer's `tt.defaultLeadTime || 1` turns the falsy 0 into 1. -/
theorem c9_counterexample :
    tplZeroLead.defaultLeadTime = some 0 ∧
    (snapshotTasks [tplZeroLead]).map (fun t => t.leadTime) = [1] ∧
    (1 : Int) ≠ 0 := by
  decide

/-- C9 (amended): each produced entry copies order, name, responsible and
preceding codes verbatim; the lead time is copied except that an absent OR
zero stored value becomes 1 (JS falsiness); status is pending iff the
template was active, and an inactive template yields a completed entry with
null dates and null completion. -/
theorem c9_materializer_amended (templates : List TaskTemplate) :
    snapshotTasks templates = templates.map materializeTask ∧
    ∀ tt : TaskTemplate,
      (materializeTask tt).order = tt.order ∧
      (materializeTask tt).name = tt.name ∧
      (materializeTask tt).responsible = tt.defaultResponsible ∧
      (materializeTask tt).precedingTasks = tt.defaultPrecedingTasks ∧
      (materializeTask tt).leadTime =
        (match tt.defaultLeadTime with
         | some v => if v ≠ 0 then v else 1
         | none => 1) ∧
      ((materializeTask tt).status = "pending" ↔ tt.isActive = true) ∧
      (tt.isActive = false →
        (materializeTask tt).status = "completed" ∧
        (materializeTask tt).computedDates = ⟨none, none⟩ ∧
        (materializeTask tt).actualCompletion = none) := by
  refine ⟨rfl, fun tt => ?_⟩
  unfold materializeTask
  cases hact : tt.isActive <;> simp [hact]

/-- C9 witness: the amended theorem applied to the inactive template. -/
theorem c9_witness :
    tplInactive.isActive = false ∧
    (materializeTask tplInactive).status = "completed" ∧
    (materializeTask tplInactive).computedDates = ⟨none, none⟩ := by
  have h := ((c9_materializer_amended []).2 tplInactive).2.2.2.2.2.2 rfl
  exact ⟨rfl, h.1, h.2.1⟩

/-! ## Claim C10 — attention readiness vs date readiness -/

/-- C10: a pending entry whose predecessors are all completed by status,
at least one with null `actualCompletion` (the inactive-template shape),
contributes its responsible departments to the attention set while the date
engine leaves its computed dates cleared. -/
theorem c10_attention_vs_dates (ts : List TaskEntry) (created : Int) (t : TaskEntry)
    (hmem : t ∈ ts) (hpend : t.status = "pending") (hac : t.actualCompletion = none)
    (hpredsDone : ∀ p ∈ t.precedingTasks,
      (tasksMapGet ts p).map TaskEntry.status = some "completed")
    (hnull : ∃ p ∈ t.precedingTasks, predCompletionOf ts p = none) :
    (∀ d ∈ t.responsible, d ≠ "" → d ∈ computeAttention ts) ∧
    (stepTask ts created t).1.computedDates = ⟨none, none⟩ ∧
    recalculateAllTaskDates ts created = ts.map (fun u => (stepTask ts created u).1) := by
  refine ⟨?_, ?_, recalc_eq_map ts created⟩
  · intro d hd hne
    refine computeAttention_mem ts t hmem hpend (fun p hp => ?_) d hd hne
    have hps := hpredsDone p hp
    unfold predCompleted
    cases hget : tasksMapGet ts p with
    | none =>
      rw [hget] at hps
      simp at hps
    | some u =>
      rw [hget] at hps
      simp only [Option.map] at hps
      have : u.status = "completed" := by
        cases hps2 : u.status
        simp [hps2] at hps
        exact hps
      simp [this]
  · rcases hnull with ⟨p, hp, hbadp⟩
    have hne2 : t.precedingTasks ≠ [] := fun h => by
      rw [h] at hp
      exact (List.not_mem_nil p) hp
    have hr : readyTime ts created t = none := by
      unfold readyTime
      rw [if_neg (by simp [List.isEmpty_iff, hne2])]
      exact scanPreds_none_of_bad ts _ none ⟨p, hp, hbadp⟩
    rw [stepTask_of_ready_none ts created t hac hr]
    by_cases hs : t.computedDates.start ≠ none ∨ t.computedDates.endDate ≠ none
    · rw [if_pos hs]
    · rw [if_neg hs]
      push_neg at hs
      have hcd : t.computedDates = ⟨t.computedDates.start, t.computedDates.endDate⟩ := rfl
      rw [hcd, hs.1, hs.2]

/-! ## Claim C3 — season auto-closure -/

/-- C3: when a task update transaction applies a change and afterwards every
task entry is completed while the season was not already Closed, the last
season state saved has status Closed with empty `requireAttention`, and an
`UPDATE_STATUS` activity entry is recorded. -/
theorem c3_auto_close (env : Env) (userId : String) (snapshot : Snapshot)
    (taskId : String) (upd : UpdateData) (res : Except JsError UpdateResult)
    (eff : Effects)
    (heq : updateTaskAndProgressSeason env userId snapshot taskId upd = (res, eff))
    (h1 : res.toOption.map UpdateResult.hasChanged = some true)
    (h2 : ∀ t ∈ (res.toOption.map UpdateResult.updatedTasks).getD [],
            t.status = "completed")
    (h3 : (findSeason env snapshot.seasonId).map Season.status ≠ some "Closed") :
    (eff.savedSeasons.getLast?).map (fun s => (s.status, s.requireAttention)) =
      some ("Closed", ([] : List String)) ∧
    "UPDATE_STATUS" ∈ eff.logs := by
  unfold updateTaskAndProgressSeason at heq
  dsimp only at heq
  split at heq
  · simp only [Prod.mk.injEq] at heq
    obtain ⟨rfl, rfl⟩ := heq
    simp [Except.toOption] at h1
  · split at heq
    · simp only [Prod.mk.injEq] at heq
      obtain ⟨rfl, rfl⟩ := heq
      simp [Except.toOption] at h1
    · split at heq
      · simp only [Prod.mk.injEq] at heq
        obtain ⟨rfl, rfl⟩ := heq
        simp [Except.toOption] at h1
      · split at heq
        · simp only [Prod.mk.injEq] at heq
          obtain ⟨rfl, rfl⟩ := heq
          simp [Except.toOption] at h1
        · split at heq
          · simp only [Prod.mk.injEq] at heq
            obtain ⟨rfl, rfl⟩ := heq
            simp [Except.toOption] at h1
          · rename_i season hseason
            split at heq
            · simp only [Prod.mk.injEq] at heq
              obtain ⟨rfl, rfl⟩ := heq
              refine ⟨rfl, ?_⟩
              simp
            · rename_i hcond
              simp only [Prod.mk.injEq] at heq
              obtain ⟨rfl, rfl⟩ := heq
              exfalso
              apply hcond
              constructor
              · simp only [Except.toOption, Option.map, Option.getD] at h2
                exact List.all_eq_true.mpr (fun t ht => by simp [h2 t ht])
              · rw [hseason] at h3
                simp only [Option.map] at h3
                intro hclosed
                exact h3 (congrArg some hclosed)

/-- C3 witness: completing the single remaining pending task of the main
fixture closes the season and empties its attention set. -/
theorem c3_witness :
    ((updateTaskAndProgressSeason envMain "u1" snapMain "sb" updMain).2.savedSeasons.getLast?).map
        (fun s => (s.status, s.requireAttention)) = some ("Closed", ([] : List String)) ∧
    "UPDATE_STATUS" ∈ (updateTaskAndProgressSeason envMain "u1" snapMain "sb" updMain).2.logs :=
  c3_auto_close envMain "u1" snapMain "sb" updMain _ _ rfl (by decide) (by decide)
    (by decide)

/-! ## Claim C7 — errors abort before persistence -/

/-- C7: whenever the task update transaction throws (any error, which covers
the claimed NotFound/Forbidden/ValidationError cases), no season and no
snapshot document has been passed to `save()`. -/
theorem c7_abort_before_persist (env : Env) (userId : String) (snapshot : Snapshot)
    (taskId : String) (upd : UpdateData) (res : Except JsError UpdateResult)
    (eff : Effects) (e : JsError)
    (heq : updateTaskAndProgressSeason env userId snapshot taskId upd = (res, eff))
    (herr : res = .error e) :
    eff.savedSeasons = [] ∧ eff.savedSnapshots = [] := by
  subst herr
  unfold updateTaskAndProgressSeason at heq
  dsimp only at heq
  split at heq
  · simp only [Prod.mk.injEq] at heq
    obtain ⟨-, rfl⟩ := heq
    exact ⟨rfl, rfl⟩
  · split at heq
    · simp only [Prod.mk.injEq] at heq
      obtain ⟨-, rfl⟩ := heq
      exact ⟨rfl, rfl⟩
    · split at heq
      · simp only [Prod.mk.injEq] at heq
        obtain ⟨-, rfl⟩ := heq
        exact ⟨rfl, rfl⟩
      · split at heq
        · simp only [Prod.mk.injEq] at heq
          obtain ⟨hok, -⟩ := heq
          exact absurd hok (by simp)
        · split at heq
          · simp only [Prod.mk.injEq] at heq
            obtain ⟨-, rfl⟩ := heq
            exact ⟨rfl, rfl⟩
          · split at heq
            · simp only [Prod.mk.injEq] at heq
              obtain ⟨hok, -⟩ := heq
              exact absurd hok (by simp)
            · simp only [Prod.mk.injEq] at heq
              obtain ⟨hok, -⟩ := heq
              exact absurd hok (by simp)

/-- C7 witness: a transaction with a missing user throws NotFound and the
effect log records no saved season or snapshot. -/
theorem c7_witness :
    updateTaskAndProgressSeason envNoUser "u1" snapMain "sb" updMain =
      (.error ⟨"User not found.", some 404⟩, Effects.empty) ∧
    Effects.empty.savedSeasons = [] ∧ Effects.empty.savedSnapshots = [] :=
  ⟨rfl, c7_abort_before_persist envNoUser "u1" snapMain "sb" updMain _ _
    ⟨"User not found.", some 404⟩ rfl rfl⟩

/-! ## Lemmas about task replacement and the prerequisite scan -/

theorem replaceTask_nochange (taskId : String) (x : TaskEntry) :
    ∀ ts : List TaskEntry, (∀ r ∈ ts, (r.id == taskId) = false) →
      replaceTask ts taskId x = ts := by
  intro ts
  induction ts with
  | nil => intro _; rfl
  | cons t rest ih =>
    intro h
    unfold replaceTask
    simp only [List.map_cons]
    rw [h t (List.mem_cons_self t rest), if_neg Bool.false_ne_true]
    exact congrArg (List.cons t) (ih (fun r hr => h r (List.mem_cons_of_mem t hr)))

theorem replaceTask_self (taskId : String) :
    ∀ (ts : List TaskEntry) (t0 : TaskEntry),
      (ts.map TaskEntry.id).Nodup →
      ts.find? (fun t => t.id == taskId) = some t0 →
      replaceTask ts taskId t0 = ts := by
  intro ts
  induction ts with
  | nil =>
    intro t0 _ h
    simp [List.find?] at h
  | cons t rest ih =>
    intro t0 hnd hfind
    have hnd1 : (t.id :: rest.map TaskEntry.id).Nodup := by
      rw [List.map_cons] at hnd
      exact hnd
    have hmem := (List.nodup_cons.mp hnd1).1
    have htail := (List.nodup_cons.mp hnd1).2
    cases hc : (t.id == taskId) with
    | true =>
      have hfind2 : t = t0 := by simpa [List.find?, hc] using hfind
      unfold replaceTask
      simp only [List.map_cons]
      rw [hc, if_pos rfl, ← hfind2]
      refine congrArg (List.cons t) ?_
      have htid : t.id = taskId := eq_of_beq hc
      refine replaceTask_nochange taskId t rest (fun r hr => ?_)
      cases hrc : (r.id == taskId) with
      | true =>
        exfalso
        have hrid : r.id = taskId := eq_of_beq hrc
        refine hmem ?_
        rw [htid, ← hrid]
        exact List.mem_map_of_mem TaskEntry.id hr
      | false => rfl
    | false =>
      have hfind2 : rest.find? (fun t => t.id == taskId) = some t0 := by
        simpa [List.find?, hc] using hfind
      unfold replaceTask
      simp only [List.map_cons]
      rw [hc, if_neg Bool.false_ne_true]
      exact congrArg (List.cons t) (ih t0 htail hfind2)

theorem find?_replaceTask (taskId : String) (x : TaskEntry)
    (hx : (x.id == taskId) = true) :
    ∀ ts : List TaskEntry, (ts.find? (fun t => t.id == taskId)).isSome = true →
      (replaceTask ts taskId x).find? (fun t => t.id == taskId) = some x := by
  intro ts
  induction ts with
  | nil =>
    intro h
    simp [List.find?] at h
  | cons t rest ih =>
    intro h
    unfold replaceTask
    simp only [List.map_cons]
    cases hc : (t.id == taskId) with
    | true =>
      rw [if_pos rfl]
      simp [List.find?, hx]
    | false =>
      rw [if_neg Bool.false_ne_true]
      have h2 : (rest.find? (fun t => t.id == taskId)).isSome = true := by
        simpa [List.find?, hc] using h
      have := ih h2
      unfold replaceTask at this
      simpa [List.find?, hc] using this

theorem find?_map_pres_id (g : TaskEntry → TaskEntry) (hg : ∀ t, (g t).id = t.id)
    (taskId : String) :
    ∀ ts : List TaskEntry,
      (ts.map g).find? (fun t => t.id == taskId) =
        (ts.find? (fun t => t.id == taskId)).map g := by
  intro ts
  induction ts with
  | nil => rfl
  | cons t rest ih =>
    simp only [List.map_cons, List.find?, hg t]
    cases hc : (t.id == taskId) with
    | true => rfl
    | false => exact ih

theorem checkPreds_ok_of (tasks : List TaskEntry) :
    ∀ ps : List String, ps.find? (fun q => ! predCompleted tasks q) = none →
      checkPreds tasks ps = .ok () := by
  intro ps
  induction ps with
  | nil => intro _; rfl
  | cons p rest ih =>
    intro h
    cases hb : predCompleted tasks p with
    | false => simp [List.find?, hb] at h
    | true =>
      have h2 : rest.find? (fun q => ! predCompleted tasks q) = none := by
        simpa [List.find?, hb] using h
      have hpc := hb
      unfold predCompleted at hpc
      cases hget : tasksMapGet tasks p with
      | none =>
        rw [hget] at hpc
        simp at hpc
      | some u =>
        rw [hget] at hpc
        have hstat : u.status = "completed" := eq_of_beq hpc
        simp only [checkPreds, hget]
        rw [if_neg (not_not_intro hstat)]
        exact ih h2

theorem checkPreds_err_of (tasks : List TaskEntry) :
    ∀ (ps : List String) (p : String),
      ps.find? (fun q => ! predCompleted tasks q) = some p →
      ∃ e, checkPreds tasks ps = .error e ∧
        e.status = (if (tasksMapGet tasks p).isSome = true then some 400 else none) := by
  intro ps
  induction ps with
  | nil =>
    intro p h
    simp [List.find?] at h
  | cons q rest ih =>
    intro p h
    cases hb : predCompleted tasks q with
    | true =>
      have h2 : rest.find? (fun w => ! predCompleted tasks w) = some p := by
        simpa [List.find?, hb] using h
      have hpc := hb
      unfold predCompleted at hpc
      cases hget : tasksMapGet tasks q with
      | none =>
        rw [hget] at hpc
        simp at hpc
      | some u =>
        rw [hget] at hpc
        have hstat : u.status = "completed" := eq_of_beq hpc
        obtain ⟨e, he, hs⟩ := ih p h2
        refine ⟨e, ?_, hs⟩
        simp only [checkPreds, hget]
        rw [if_neg (not_not_intro hstat)]
        exact he
    | false =>
      have h2 : q = p := by simpa [List.find?, hb] using h
      subst h2
      have hpc := hb
      unfold predCompleted at hpc
      cases hget : tasksMapGet tasks q with
      | none =>
        refine ⟨⟨"TypeError: Cannot read properties of undefined (reading name)", none⟩,
          ?_, ?_⟩
        · simp only [checkPreds, hget]
        · rfl
      | some u =>
        rw [hget] at hpc
        have hpc2 : (u.status == "completed") = false := hpc
        have hne : ¬ u.status = "completed" := by
          intro hstat
          rw [hstat] at hpc2
          simp at hpc2
        refine ⟨⟨"Cannot complete task. Preceding task " ++ u.name ++
          " (" ++ u.order ++ ") is not done.", some 400⟩, ?_, ?_⟩
        · simp only [checkPreds, hget]
          rw [if_pos hne]
        · rfl

theorem applyRemarks_preserves (task0 : TaskEntry) (r? : Option String) :
    ((applyRemarks task0 r?).1).id = task0.id ∧
    ((applyRemarks task0 r?).1).order = task0.order ∧
    ((applyRemarks task0 r?).1).name = task0.name ∧
    ((applyRemarks task0 r?).1).status = task0.status ∧
    ((applyRemarks task0 r?).1).actualCompletion = task0.actualCompletion ∧
    ((applyRemarks task0 r?).1).precedingTasks = task0.precedingTasks := by
  unfold applyRemarks
  cases r? with
  | none => exact ⟨rfl, rfl, rfl, rfl, rfl, rfl⟩
  | some r =>
    dsimp only
    by_cases hc : task0.remarks ≠ some r
    · rw [if_pos hc]
      exact ⟨rfl, rfl, rfl, rfl, rfl, rfl⟩
    · rw [if_neg hc]
      exact ⟨rfl, rfl, rfl, rfl, rfl, rfl⟩

theorem mem_id_unique (tid : String) :
    ∀ (ts : List TaskEntry) (t0 t : TaskEntry),
      (ts.map TaskEntry.id).Nodup →
      ts.find? (fun u => u.id == tid) = some t0 →
      t ∈ ts → (t.id == tid) = true → t = t0 := by
  intro ts
  induction ts with
  | nil =>
    intro t0 t _ h _ _
    simp [List.find?] at h
  | cons hd rest ih =>
    intro t0 t hnd hfind hmem htid
    have hnd1 : (hd.id :: rest.map TaskEntry.id).Nodup := by
      rw [List.map_cons] at hnd
      exact hnd
    have hhead := (List.nodup_cons.mp hnd1).1
    have htail := (List.nodup_cons.mp hnd1).2
    cases hc : (hd.id == tid) with
    | true =>
      have h0 : hd = t0 := by simpa [List.find?, hc] using hfind
      rcases List.mem_cons.mp hmem with rfl | hmem2
      · exact h0
      · exfalso
        refine hhead ?_
        have h1 : t.id = tid := eq_of_beq htid
        have h2 : hd.id = tid := eq_of_beq hc
        rw [h2, ← h1]
        exact List.mem_map_of_mem TaskEntry.id hmem2
    | false =>
      have hfind2 : rest.find? (fun u => u.id == tid) = some t0 := by
        simpa [List.find?, hc] using hfind
      rcases List.mem_cons.mp hmem with rfl | hmem2
      · simp [hc] at htid
      · exact ih t0 t htail hfind2 hmem2 htid

theorem tasksMapGet_map_view (f : TaskEntry → TaskEntry) (o : String) :
    ∀ ts : List TaskEntry, (∀ t ∈ ts, predView (f t) = predView t) →
      ∀ acc1 acc2 : Option TaskEntry, acc1.map predView = acc2.map predView →
      ((ts.map f).foldl (fun a t => if t.order = o then some t else a) acc1).map predView =
        (ts.foldl (fun a t => if t.order = o then some t else a) acc2).map predView := by
  intro ts
  induction ts with
  | nil =>
    intro _ acc1 acc2 h
    exact h
  | cons t rest ih =>
    intro hview acc1 acc2 hacc
    simp only [List.map_cons, List.foldl_cons]
    have hvt := hview t (List.mem_cons_self t rest)
    have hord : (f t).order = t.order := congrArg Prod.fst hvt
    rw [hord]
    by_cases hc : t.order = o
    · rw [if_pos hc, if_pos hc]
      refine ih (fun u hu => hview u (List.mem_cons_of_mem t hu)) (some (f t)) (some t) ?_
      simp only [Option.map]
      rw [hvt]
    · rw [if_neg hc, if_neg hc]
      exact ih (fun u hu => hview u (List.mem_cons_of_mem t hu)) acc1 acc2 hacc

theorem tasksMapGet_replaceTask_view (ts : List TaskEntry) (tid : String) (x : TaskEntry)
    (hx : ∀ t ∈ ts, (t.id == tid) = true → predView x = predView t) (q : String) :
    (tasksMapGet (replaceTask ts tid x) q).map predView =
      (tasksMapGet ts q).map predView := by
  unfold replaceTask tasksMapGet
  refine tasksMapGet_map_view _ q ts ?_ none none rfl
  intro t hm
  by_cases hc : (t.id == tid) = true
  · rw [if_pos hc]
    exact hx t hm hc
  · rw [if_neg hc]

theorem checkPreds_congr (ts1 ts2 : List TaskEntry)
    (h : ∀ q, (tasksMapGet ts1 q).map predView = (tasksMapGet ts2 q).map predView) :
    ∀ ps : List String, checkPreds ts1 ps = checkPreds ts2 ps := by
  intro ps
  induction ps with
  | nil => rfl
  | cons p rest ih =>
    have hp := h p
    cases h1 : tasksMapGet ts1 p with
    | none =>
      cases h2 : tasksMapGet ts2 p with
      | none => simp only [checkPreds, h1, h2]
      | some u =>
        rw [h1, h2] at hp
        simp at hp
    | some u1 =>
      cases h2 : tasksMapGet ts2 p with
      | none =>
        rw [h1, h2] at hp
        simp at hp
      | some u2 =>
        rw [h1, h2] at hp
        simp only [Option.map] at hp
        have hview := Option.some.inj hp
        have hord : u1.order = u2.order := congrArg Prod.fst hview
        have hstat : u1.status = u2.status := congrArg (fun w => w.2.1) hview
        have hname : u1.name = u2.name := congrArg (fun w => w.2.2) hview
        simp only [checkPreds, h1, h2]
        rw [hstat, hname, hord]
        by_cases hc : u2.status = "completed"
        · rw [if_neg (not_not_intro hc), if_neg (not_not_intro hc)]
          exact ih
        · rw [if_pos hc, if_pos hc]

theorem predCompleted_congr (ts1 ts2 : List TaskEntry)
    (h : ∀ q, (tasksMapGet ts1 q).map predView = (tasksMapGet ts2 q).map predView)
    (q : String) : predCompleted ts1 q = predCompleted ts2 q := by
  unfold predCompleted
  have hq := h q
  cases h1 : tasksMapGet ts1 q with
  | none =>
    cases h2 : tasksMapGet ts2 q with
    | none => rfl
    | some u =>
      rw [h1, h2] at hq
      simp at hq
  | some u1 =>
    cases h2 : tasksMapGet ts2 q with
    | none =>
      rw [h1, h2] at hq
      simp at hq
    | some u2 =>
      rw [h1, h2] at hq
      simp only [Option.map] at hq
      have hstat : u1.status = u2.status :=
        congrArg (fun w => w.2.1) (Option.some.inj hq)
      show (u1.status == "completed") = (u2.status == "completed")
      rw [hstat]


/-! ## Claim C6 — completion preconditions -/

/-- C6 counterexample: with a dangling preceding code listed before an
existing non-completed one, the claim requires ValidationError 400, but the
code dies with an untyped `TypeError` while building the error message. -/
theorem c6_counterexample :
    (updateTaskAndProgressSeason envMain "u1" snapDangling "dt" updMain).1 =
      .error ⟨"TypeError: Cannot read properties of undefined (reading name)", none⟩ ∧
    (tasksMapGet snapDangling.tasks "B").map TaskEntry.status = some "pending" ∧
    ("pending" : String) ≠ "completed" ∧
    (errOf (updateTaskAndProgressSeason envMain "u1" snapDangling "dt" updMain).1).map
      JsError.status ≠ some (some 400) :=
  ⟨rfl, by decide, by decide, by decide⟩

/-- C6 (amended): for an update providing a new completion date that differs
at day granularity — regardless of any accompanying remarks value, which the
completion checks never read — the transaction raises 403 when the entry is
already completed and the actor is not admin/planner; otherwise the
preceding codes are scanned in order: if the first offending code resolves
to an entry it raises 400, if it is dangling it aborts with an untyped
error; and when every preceding code resolves to a completed entry the
completion is applied: the entry ends up with the new `actualCompletion` and
status forced to `completed`. -/
theorem c6_completion_amended (env : Env) (userId : String) (snapshot : Snapshot)
    (taskId : String) (upd : UpdateData) (role : String) (task0 : TaskEntry) (v : Int)
    (hrole : findUserRole env userId = some role)
    (hfind : snapshot.tasks.find? (fun t => t.id == taskId) = some task0)
    (hac : upd.actualCompletion = some (some v))
    (hnodup : (snapshot.tasks.map TaskEntry.id).Nodup)
    (hdiff : task0.actualCompletion.map dayIndex ≠ some (dayIndex v)) :
    (task0.status = "completed" ∧
        (toLowerStr role == "admin" || toLowerStr role == "planner") = false →
      (updateTaskAndProgressSeason env userId snapshot taskId upd).1 =
        .error ⟨"This task is already completed and cannot be changed.", some 403⟩) ∧
    (¬(task0.status = "completed" ∧
          (toLowerStr role == "admin" || toLowerStr role == "planner") = false) →
      (∀ p, task0.precedingTasks.find?
          (fun q => ! predCompleted snapshot.tasks q) = some p →
        (errOf (updateTaskAndProgressSeason env userId snapshot taskId upd).1).map
            JsError.status =
          some (if (tasksMapGet snapshot.tasks p).isSome = true then some 400
                else none)) ∧
      (task0.precedingTasks.find? (fun q => ! predCompleted snapshot.tasks q) = none →
        ∀ season0, findSeason env snapshot.seasonId = some season0 →
        ∃ r, (updateTaskAndProgressSeason env userId snapshot taskId upd).1 = .ok r ∧
          r.hasChanged = true ∧
          (r.updatedTasks.find? (fun t => t.id == taskId)).map
            (fun t => (t.actualCompletion, t.status)) = some (some v, "completed"))) := by
  have hbid : (task0.id == taskId) = true := by
    have h := List.find?_some hfind
    exact h
  unfold updateTaskAndProgressSeason
  simp only [hrole, hfind, hac]
  generalize htask1 : (applyRemarks task0 upd.remarks).1 = task1
  have hpres := applyRemarks_preserves task0 upd.remarks
  rw [htask1] at hpres
  obtain ⟨hidc, hordc, hnamec, hstc, hacc, hprec⟩ := hpres
  simp only [applyCompletion, hstc, hacc, hprec]
  rw [if_pos hdiff]
  have hxview : ∀ t ∈ snapshot.tasks, (t.id == taskId) = true →
      predView task1 = predView t := by
    intro t hm ht
    rw [mem_id_unique taskId snapshot.tasks task0 t hnodup hfind hm ht]
    unfold predView
    rw [hordc, hnamec, hstc]
  have hviewget : ∀ q,
      (tasksMapGet (replaceTask snapshot.tasks taskId task1) q).map predView =
        (tasksMapGet snapshot.tasks q).map predView :=
    fun q => tasksMapGet_replaceTask_view snapshot.tasks taskId task1 hxview q
  have hcp := checkPreds_congr (replaceTask snapshot.tasks taskId task1)
    snapshot.tasks hviewget task0.precedingTasks
  constructor
  · rintro ⟨hcompl, hnoadm⟩
    rw [if_pos ⟨hcompl, hnoadm⟩]
  · intro hnot
    rw [if_neg hnot, hcp]
    constructor
    · intro p hp
      obtain ⟨e, he, hs⟩ := checkPreds_err_of snapshot.tasks task0.precedingTasks p hp
      rw [he]
      simp [errOf, hs]
    · intro hnone season0 hseason
      rw [checkPreds_ok_of snapshot.tasks task0.precedingTasks hnone]
      dsimp only
      rw [if_neg (by simp)]
      simp only [hseason]
      rw [apply_ite Prod.fst, ite_self]
      refine ⟨_, rfl, rfl, ?_⟩
      rw [recalc_eq_map]
      rw [find?_map_pres_id _ (fun t => (stepTask_preserves _ _ t).2.2.2.2.2) taskId]
      have hbid1 : (task1.id == taskId) = true := by
        rw [hidc]
        exact hbid
      have hbid2 :
          (({ task1 with
              precedingTasks := task0.precedingTasks
              actualCompletion := some v
              status := "completed" } :
            TaskEntry).id == taskId) = true := hbid1
      have hsome1 : ((replaceTask snapshot.tasks taskId task1).find?
          (fun t => t.id == taskId)).isSome = true := by
        rw [find?_replaceTask taskId task1 hbid1 snapshot.tasks (by rw [hfind]; rfl)]
        rfl
      rw [find?_replaceTask taskId
        { task1 with
          precedingTasks := task0.precedingTasks
          actualCompletion := some v
          status := "completed" } hbid2
        (replaceTask snapshot.tasks taskId task1) hsome1]
      have hpres2 := stepTask_preserves
        (replaceTask (replaceTask snapshot.tasks taskId task1) taskId
          { task1 with
            precedingTasks := task0.precedingTasks
            actualCompletion := some v
            status := "completed" })
        season0.createdAt
        { task1 with
          precedingTasks := task0.precedingTasks
          actualCompletion := some v
          status := "completed" }
      simp only [Option.map]
      rw [hpres2.2.1, hpres2.2.2.2.2.1]

/-- C6 witness: the success branch — completing the pending task of the
main fixture with all predecessors completed marks it completed. -/
theorem c6_witness :
    ∃ r, (updateTaskAndProgressSeason envMain "u1" snapMain "sb" updMain).1 = .ok r ∧
      r.hasChanged = true ∧
      (r.updatedTasks.find? (fun t => t.id == "sb")).map
        (fun t => (t.actualCompletion, t.status)) =
          some (some 86400000, "completed") :=
  ((c6_completion_amended envMain "u1" snapMain "sb" updMain "User" seasonTaskB
      86400000 rfl (by decide) rfl (by decide) (by decide)).2
    (by decide)).2 (by decide) seasonMain (by decide)

/-- C10 witness: the two-task fixture — B's department needs attention while
B's computed dates stay null. -/
theorem c10_witness :
    "QA" ∈ computeAttention [taskInactiveA, taskPendingB] ∧
    (stepTask [taskInactiveA, taskPendingB] 0 taskPendingB).1.computedDates =
      ⟨none, none⟩ := by
  have h := c10_attention_vs_dates [taskInactiveA, taskPendingB] 0 taskPendingB
    (by decide) (by decide) (by decide) (by decide) ⟨"A", by decide, by decide⟩
  exact ⟨h.1 "QA" (by decide) (by decide), h.2.1⟩

end ProdTimeline
